import Mathlib

/-!
# PredictionMarket — a shallow embedding of the bootcamp contract

This file embeds `contracts/src/PredictionMarket.sol` and its base
`ReceiverTemplate.sol` (both given in full in
`src/book/src/day-1/04-smart-contract.md`) into Lean 4 and proves the
behavioural properties of the market ledger: pool accounting, the
payout law of `claim`, settlement idempotency, report routing, and the
forwarder authentication of `onReport`.

Modelling conventions:
* addresses and `uint256` values are `Nat`; Solidity 0.8 checked
  arithmetic reverts on overflow rather than wrapping, and no operation
  here wraps, so plain `Nat` arithmetic is the faithful model (an
  explicit `% 2 ^ 48` appears exactly where the source casts
  `uint48(block.timestamp)`);
* Solidity `string` is a raw byte sequence, modelled as `List Nat`
  (each element one byte);
* the two storage mappings are association lists with a default value
  for absent keys, exactly the mapping semantics of the EVM;
* a reverting call is an `Except.error` carrying the custom error; the
  pre-state is untouched by construction, which is Solidity's
  all-or-nothing revert semantics;
* the external value transfer in `claim` (`msg.sender.call{value: payout}`)
  is modelled by a boolean `transferOk` parameter: `false` means the
  low-level call failed, and the whole operation reverts with
  `TransferFailed`.
-/

namespace PredictionMarket

/-- Solidity source: `enum Prediction { Yes, No }`. -/
inductive Prediction where
  | Yes : Prediction
  | No : Prediction
deriving DecidableEq, Repr

/-- Solidity source: `struct Market` of `PredictionMarket.sol`. -/
structure Market where
  creator : Nat
  createdAt : Nat
  settledAt : Nat
  settled : Bool
  confidence : Nat
  outcome : Prediction
  totalYesPool : Nat
  totalNoPool : Nat
  question : List Nat
deriving DecidableEq, Repr

/-- The all-zero `Market` record an EVM mapping returns for an absent key. -/
def Market.empty : Market :=
  { creator := 0, createdAt := 0, settledAt := 0, settled := false,
    confidence := 0, outcome := Prediction.Yes,
    totalYesPool := 0, totalNoPool := 0, question := [] }

/-- Solidity source: `struct UserPrediction` of `PredictionMarket.sol`. -/
structure UserPrediction where
  amount : Nat
  prediction : Prediction
  claimed : Bool
deriving DecidableEq, Repr

/-- The all-zero `UserPrediction` record for an absent key. -/
def UserPrediction.empty : UserPrediction :=
  { amount := 0, prediction := Prediction.Yes, claimed := false }

/-- The custom errors of `PredictionMarket.sol` and `ReceiverTemplate.sol`,
plus `AbiDecodeError` for a revert raised by `abi.decode` itself. -/
inductive Err where
  | MarketDoesNotExist | MarketAlreadySettled | MarketNotSettled
  | AlreadyPredicted | InvalidAmount | NothingToClaim | AlreadyClaimed
  | TransferFailed
  | InvalidForwarderAddress | InvalidSender | InvalidAuthor
  | InvalidWorkflowName | InvalidWorkflowId | WorkflowNameRequiresAuthorValidation
  | AbiDecodeError
deriving DecidableEq, Repr

/-- The events of `PredictionMarket.sol`. -/
inductive Event where
  | MarketCreated (marketId : Nat) (question : List Nat) (creator : Nat)
  | PredictionMade (marketId : Nat) (predictor : Nat) (prediction : Prediction) (amount : Nat)
  | SettlementRequested (marketId : Nat) (question : List Nat)
  | MarketSettled (marketId : Nat) (outcome : Prediction) (confidence : Nat)
  | WinningsClaimed (marketId : Nat) (claimer : Nat) (amount : Nat)
deriving DecidableEq, Repr

/-- Contract storage: the `ReceiverTemplate` configuration fields
(`s_forwarderAddress`, `s_expectedAuthor`, `s_expectedWorkflowName`,
`s_expectedWorkflowId`, the last two held as their numeric `bytes10` /
`bytes32` values) and the `PredictionMarket` ledger (`nextMarketId` and
the two mappings as association lists). -/
structure ContractState where
  forwarderAddress : Nat
  expectedAuthor : Nat
  expectedWorkflowName : Nat
  expectedWorkflowId : Nat
  nextMarketId : Nat
  markets : List (Nat × Market)
  predictions : List ((Nat × Nat) × UserPrediction)
deriving DecidableEq, Repr

/-- Mapping read `markets[marketId]`: first entry with the key, default
record when absent. -/
def mlookup : List (Nat × Market) → Nat → Market
  | [], _ => Market.empty
  | (k, m) :: t, mid => if k = mid then m else mlookup t mid

/-- Mapping write `markets[marketId] = m`: replace the first entry with
the key, append when absent. -/
def minsert : List (Nat × Market) → Nat → Market → List (Nat × Market)
  | [], mid, m => [(mid, m)]
  | (k, m') :: t, mid, m =>
      if k = mid then (mid, m) :: t else (k, m') :: minsert t mid m

/-- Mapping read `predictions[marketId][user]`. -/
def plookup : List ((Nat × Nat) × UserPrediction) → Nat × Nat → UserPrediction
  | [], _ => UserPrediction.empty
  | (k, u) :: t, key => if k = key then u else plookup t key

/-- Mapping write `predictions[marketId][user] = u`. -/
def pinsert : List ((Nat × Nat) × UserPrediction) → Nat × Nat → UserPrediction →
    List ((Nat × Nat) × UserPrediction)
  | [], key, u => [(key, u)]
  | (k, u') :: t, key, u =>
      if k = key then (key, u) :: t else (k, u') :: pinsert t key u

/-- Getter `getMarket(marketId)`. -/
def getMarket (s : ContractState) (marketId : Nat) : Market :=
  mlookup s.markets marketId

/-- Getter `getPrediction(marketId, user)`. -/
def getPrediction (s : ContractState) (marketId user : Nat) : UserPrediction :=
  plookup s.predictions (marketId, user)

/-- Function `createMarket(string memory question)`: allocate `nextMarketId++`,
store the fresh `Market` (creator = `msg.sender`,
`createdAt = uint48(block.timestamp)`, unsettled, zero pools), emit
`MarketCreated`. Returns (new state, marketId, event); the function has
no revert path. -/
def createMarket (s : ContractState) (sender timestamp : Nat) (question : List Nat) :
    ContractState × Nat × Event :=
  let marketId := s.nextMarketId
  let m : Market :=
    { creator := sender, createdAt := timestamp % 2 ^ 48, settledAt := 0,
      settled := false, confidence := 0, outcome := Prediction.Yes,
      totalYesPool := 0, totalNoPool := 0, question := question }
  ({ s with nextMarketId := marketId + 1, markets := minsert s.markets marketId m },
   marketId, Event.MarketCreated marketId question sender)

/-- Function `predict(uint256 marketId, Prediction prediction)` with
`msg.sender = sender` and `msg.value = msgValue`, checks in source order. -/
def predict (s : ContractState) (sender marketId : Nat) (prediction : Prediction)
    (msgValue : Nat) : Except Err (ContractState × Event) :=
  let m := mlookup s.markets marketId
  if m.creator = 0 then .error .MarketDoesNotExist
  else if m.settled then .error .MarketAlreadySettled
  else if msgValue = 0 then .error .InvalidAmount
  else
    let userPred := plookup s.predictions (marketId, sender)
    if userPred.amount ≠ 0 then .error .AlreadyPredicted
    else
      let newPred : UserPrediction :=
        { amount := msgValue, prediction := prediction, claimed := false }
      let s1 := { s with predictions := pinsert s.predictions (marketId, sender) newPred }
      let s2 :=
        if prediction = Prediction.Yes then
          { s1 with markets := minsert s1.markets marketId
                      { m with totalYesPool := m.totalYesPool + msgValue } }
        else
          { s1 with markets := minsert s1.markets marketId
                      { m with totalNoPool := m.totalNoPool + msgValue } }
      .ok (s2, Event.PredictionMade marketId sender prediction msgValue)

/-- Function `requestSettlement(uint256 marketId)`: the two precondition checks,
then only the `SettlementRequested` emission. The Solidity body never
reads `msg.sender`; the `sender` argument is carried to show that. -/
def requestSettlement (s : ContractState) (sender marketId : Nat) :
    Except Err (ContractState × Event) :=
  let m := mlookup s.markets marketId
  if m.creator = 0 then .error .MarketDoesNotExist
  else if m.settled then .error .MarketAlreadySettled
  else .ok (s, Event.SettlementRequested marketId m.question)

/-- Function `_settleMarket` after its `abi.decode`: existence and
not-yet-settled checks, then set `settled`, `confidence`,
`settledAt = uint48(block.timestamp)` and `outcome`, and emit
`MarketSettled`. -/
def settleMarket (s : ContractState) (marketId : Nat) (outcome : Prediction)
    (confidence timestamp : Nat) : Except Err (ContractState × Event) :=
  let m := mlookup s.markets marketId
  if m.creator = 0 then .error .MarketDoesNotExist
  else if m.settled then .error .MarketAlreadySettled
  else
    let settledM : Market :=
      { m with
        settled := true, confidence := confidence,
        settledAt := timestamp % 2 ^ 48, outcome := outcome }
    .ok ({ s with markets := minsert s.markets marketId settledM },
         Event.MarketSettled marketId outcome confidence)

/-- Function `claim(uint256 marketId)` with `msg.sender = sender`: the five
checks in source order, then flip `claimed`, compute
`payout = amount * (totalYesPool + totalNoPool) / winningPool`
(truncating division) and transfer it; a failed transfer reverts the
whole call with `TransferFailed`. -/
def claim (s : ContractState) (sender marketId : Nat) (transferOk : Bool) :
    Except Err (ContractState × Event) :=
  let m := mlookup s.markets marketId
  if m.creator = 0 then .error .MarketDoesNotExist
  else if ¬ m.settled then .error .MarketNotSettled
  else
    let userPred := plookup s.predictions (marketId, sender)
    if userPred.amount = 0 then .error .NothingToClaim
    else if userPred.claimed then .error .AlreadyClaimed
    else if userPred.prediction ≠ m.outcome then .error .NothingToClaim
    else
      let claimedPred : UserPrediction := { userPred with claimed := true }
      let s1 := { s with predictions :=
                    pinsert s.predictions (marketId, sender) claimedPred }
      let totalPool := m.totalYesPool + m.totalNoPool
      let winningPool :=
        if m.outcome = Prediction.Yes then m.totalYesPool else m.totalNoPool
      let payout := userPred.amount * totalPool / winningPool
      if transferOk then .ok (s1, Event.WinningsClaimed marketId sender payout)
      else .error .TransferFailed

/-! ## ABI decoding and the report entry point

`_processReport` consumes raw report bytes. A byte string is `List Nat`
(each element `< 256` in well-formed data; `beBytes` reduces mod 256 so
the value read is the big-endian word either way). -/

/-- Big-endian value of a byte list. -/
def beBytes (bs : List Nat) : Nat :=
  bs.foldl (fun acc b => acc * 256 + b % 256) 0

/-- The 32-byte word at `off`, or `none` when the data is too short —
`abi.decode` reverts on out-of-bounds reads. -/
def word (bs : List Nat) (off : Nat) : Option Nat :=
  if off + 32 ≤ bs.length then some (beBytes ((bs.drop off).take 32)) else none

/-- Decoder `abi.decode(report, (uint256, Prediction, uint16))`: three head
words; the enum word must be `< 2` and the `uint16` word `< 2 ^ 16`
(Solidity's decoder reverts on a dirty word). -/
def decodeSettleReport (bs : List Nat) : Option (Nat × Prediction × Nat) :=
  match word bs 0, word bs 32, word bs 64 with
  | some marketId, some rawOutcome, some confidence =>
      if rawOutcome = 0 then
        if confidence < 2 ^ 16 then some (marketId, Prediction.Yes, confidence) else none
      else if rawOutcome = 1 then
        if confidence < 2 ^ 16 then some (marketId, Prediction.No, confidence) else none
      else none
  | _, _, _ => none

/-- Decoder `abi.decode(report, (string))`: a head word holding the offset of
the string, then its length word and that many content bytes; reverts
when the data is too short. -/
def decodeStringReport (bs : List Nat) : Option (List Nat) :=
  match word bs 0 with
  | none => none
  | some off =>
      match word bs off with
      | none => none
      | some len =>
          if off + 32 + len ≤ bs.length then some ((bs.drop (off + 32)).take len)
          else none

/-- Function `_processReport(bytes calldata report)`: when the report is
nonempty and its first byte is `0x01`, settle from the remaining bytes;
otherwise decode the whole payload as a string and create a market.
`sender` is `msg.sender` of the external call (the forwarder), which
`createMarket` records as creator. -/
def processReport (s : ContractState) (sender timestamp : Nat) (report : List Nat) :
    Except Err (ContractState × Event) :=
  match report with
  | b :: rest =>
      if b = 1 then
        match decodeSettleReport rest with
        | some (marketId, outcome, confidence) =>
            settleMarket s marketId outcome confidence timestamp
        | none => .error .AbiDecodeError
      else
        match decodeStringReport report with
        | some question =>
            let r := createMarket s sender timestamp question
            .ok (r.1, r.2.2)
        | none => .error .AbiDecodeError
  | [] =>
      match decodeStringReport report with
      | some question =>
          let r := createMarket s sender timestamp question
          .ok (r.1, r.2.2)
      | none => .error .AbiDecodeError

/-- Function `_decodeMetadata`: `workflowId` = bytes [0,32), `workflowName` =
bytes [32,42) (a `bytes10`), `workflowOwner` = bytes [42,62); the
assembly `mload`s read zeroes past the end of the buffer. -/
def decodeMetadata (metadata : List Nat) : Nat × Nat × Nat :=
  let byteAt := fun i => metadata.getD i 0
  let readBE := fun (off n : Nat) =>
    beBytes ((List.range n).map (fun i => byteAt (off + i)))
  (readBE 0 32, readBE 32 10, readBE 42 20)

/-- Function `ReceiverTemplate.onReport(metadata, report)` with
`msg.sender = sender`: the forwarder check (skipped when the configured
forwarder is the zero address), the optional workflow-identity checks,
then `_processReport`. -/
def onReport (s : ContractState) (sender timestamp : Nat) (metadata report : List Nat) :
    Except Err (ContractState × Event) :=
  if s.forwarderAddress ≠ 0 ∧ sender ≠ s.forwarderAddress then
    .error .InvalidSender
  else if s.expectedWorkflowId ≠ 0 ∨ s.expectedAuthor ≠ 0 ∨ s.expectedWorkflowName ≠ 0 then
    let d := decodeMetadata metadata
    if s.expectedWorkflowId ≠ 0 ∧ d.1 ≠ s.expectedWorkflowId then
      .error .InvalidWorkflowId
    else if s.expectedAuthor ≠ 0 ∧ d.2.2 ≠ s.expectedAuthor then
      .error .InvalidAuthor
    else if s.expectedWorkflowName ≠ 0 then
      if s.expectedAuthor = 0 then .error .WorkflowNameRequiresAuthorValidation
      else if d.2.1 ≠ s.expectedWorkflowName then .error .InvalidWorkflowName
      else processReport s sender timestamp report
    else processReport s sender timestamp report
  else processReport s sender timestamp report

/-! ## Reachable states

The transaction-level step functions: a reverting call leaves the state
exactly as it was (EVM revert semantics), a successful call moves to
the returned state. `Reachable` closes the deployed state under every
externally callable entry point; the owner-only configuration setters
are over-approximated by `config`, which lets the four receiver fields
change arbitrarily (this covers `setForwarderAddress`,
`setExpectedAuthor`, `setExpectedWorkflowName`, `setExpectedWorkflowId`
without embedding the SHA-256 name hashing, and only widens the set of
reachable states). -/

/-- The deployed state: the constructor requires a nonzero forwarder,
all optional checks disabled, empty ledger. -/
def initialState (forwarder : Nat) : ContractState :=
  { forwarderAddress := forwarder, expectedAuthor := 0,
    expectedWorkflowName := 0, expectedWorkflowId := 0,
    nextMarketId := 0, markets := [], predictions := [] }

/-- One `predict` transaction. -/
def stepPredict (s : ContractState) (sender marketId : Nat) (prediction : Prediction)
    (msgValue : Nat) : ContractState :=
  match predict s sender marketId prediction msgValue with
  | .ok r => r.1
  | .error _ => s

/-- One `requestSettlement` transaction. -/
def stepRequestSettlement (s : ContractState) (sender marketId : Nat) : ContractState :=
  match requestSettlement s sender marketId with
  | .ok r => r.1
  | .error _ => s

/-- One `onReport` transaction. -/
def stepOnReport (s : ContractState) (sender timestamp : Nat)
    (metadata report : List Nat) : ContractState :=
  match onReport s sender timestamp metadata report with
  | .ok r => r.1
  | .error _ => s

/-- One `claim` transaction. -/
def stepClaim (s : ContractState) (sender marketId : Nat) (transferOk : Bool) :
    ContractState :=
  match claim s sender marketId transferOk with
  | .ok r => r.1
  | .error _ => s

/-- States reachable from deployment through the external interface. -/
inductive Reachable : ContractState → Prop where
  | deployed (forwarder : Nat) (hf : forwarder ≠ 0) : Reachable (initialState forwarder)
  | create (s : ContractState) (sender timestamp : Nat) (question : List Nat)
      (h : Reachable s) : Reachable (createMarket s sender timestamp question).1
  | predictTx (s : ContractState) (sender marketId : Nat) (prediction : Prediction)
      (msgValue : Nat) (h : Reachable s) :
      Reachable (stepPredict s sender marketId prediction msgValue)
  | requestTx (s : ContractState) (sender marketId : Nat) (h : Reachable s) :
      Reachable (stepRequestSettlement s sender marketId)
  | reportTx (s : ContractState) (sender timestamp : Nat) (metadata report : List Nat)
      (h : Reachable s) : Reachable (stepOnReport s sender timestamp metadata report)
  | claimTx (s : ContractState) (sender marketId : Nat) (transferOk : Bool)
      (h : Reachable s) : Reachable (stepClaim s sender marketId transferOk)
  | config (s : ContractState) (f a n i : Nat) (h : Reachable s) :
      Reachable { s with forwarderAddress := f, expectedAuthor := a,
                         expectedWorkflowName := n, expectedWorkflowId := i }

/-! ## Stake sums over the predictions mapping -/

/-- Total recorded stake on one market (every `UserPrediction.amount`
stored under that market id). -/
def stakeSum : List ((Nat × Nat) × UserPrediction) → Nat → Nat
  | [], _ => 0
  | (k, u) :: t, mid => (if k.1 = mid then u.amount else 0) + stakeSum t mid

/-- Recorded stake on one side of one market. -/
def sideSum : List ((Nat × Nat) × UserPrediction) → Nat → Prediction → Nat
  | [], _, _ => 0
  | (k, u) :: t, mid, side =>
      (if k.1 = mid ∧ u.prediction = side then u.amount else 0) + sideSum t mid side

/-- The arguments of one `predict` transaction. -/
structure PredictCall where
  sender : Nat
  marketId : Nat
  prediction : Prediction
  msgValue : Nat
deriving DecidableEq, Repr

/-- Run a sequence of `predict` transactions (a failing one reverts and
leaves the state unchanged). -/
def runPredicts (s : ContractState) : List PredictCall → ContractState
  | [] => s
  | c :: t => runPredicts (stepPredict s c.sender c.marketId c.prediction c.msgValue) t

/-! ## Concrete states for the witnesses

`scenarioState` is the settled market of the book's walked-through
scenario: A (address 10) staked 100 on Yes, B (address 11) staked 50 on
No, the market settled Yes with confidence 9000. -/

def scenarioState : ContractState :=
  { forwarderAddress := 1, expectedAuthor := 0, expectedWorkflowName := 0,
    expectedWorkflowId := 0, nextMarketId := 1,
    markets := [(0, { creator := 7, createdAt := 0, settledAt := 5, settled := true,
                      confidence := 9000, outcome := Prediction.Yes,
                      totalYesPool := 100, totalNoPool := 50, question := [81] })],
    predictions := [((0, 10), { amount := 100, prediction := Prediction.Yes, claimed := false }),
                    ((0, 11), { amount := 50, prediction := Prediction.No, claimed := false })] }

/-- The state `scenarioState` after A's successful claim. -/
def scenarioClaimed : ContractState :=
  { scenarioState with
    predictions := [((0, 10), { amount := 100, prediction := Prediction.Yes, claimed := true }),
                    ((0, 11), { amount := 50, prediction := Prediction.No, claimed := false })] }

/-- A freshly deployed contract (forwarder address 1) after one
`createMarket` by address 7. -/
def bootState : ContractState := (createMarket (initialState 1) 7 0 [81]).1

/-- The state `bootState` after address 10 stakes 100 on Yes. -/
def stakedState : ContractState := stepPredict bootState 10 0 Prediction.Yes 100

/-- The report bytes delivered for a settlement: prefix `0x01`, then the
ABI words `marketId = 0`, `outcome = 0` (Yes), `confidence = 9000`
(`0x2328`). -/
def settleReportBytes : List Nat :=
  1 :: (List.replicate 32 0 ++ (List.replicate 32 0 ++ (List.replicate 30 0 ++ [35, 40])))

/-- The report bytes for a creation: `abi.encode("Q")` — offset word 32,
length word 1, the byte `Q` (81) padded to a word. -/
def createReportBytes : List Nat :=
  (List.replicate 31 0 ++ [32]) ++ ((List.replicate 31 0 ++ [1]) ++ (81 :: List.replicate 31 0))

/-- The state `stakedState` after the forwarder delivers the settlement report. -/
def settledState : ContractState := stepOnReport stakedState 1 5 [] settleReportBytes

/-- A state whose market 0 is open and already carries a stake by
address 5. -/
def c3State : ContractState :=
  { forwarderAddress := 1, expectedAuthor := 0, expectedWorkflowName := 0,
    expectedWorkflowId := 0, nextMarketId := 1,
    markets := [(0, { creator := 7, createdAt := 0, settledAt := 0, settled := false,
                      confidence := 0, outcome := Prediction.Yes,
                      totalYesPool := 100, totalNoPool := 0, question := [81] })],
    predictions := [((0, 5), { amount := 100, prediction := Prediction.Yes, claimed := false })] }

/-- The state `scenarioState` with forwarder validation disabled
(`setForwarderAddress(address(0))`). -/
def openState : ContractState := { scenarioState with forwarderAddress := 0 }

/-! ## Map lemmas -/

theorem mlookup_minsert (l : List (Nat × Market)) (k k' : Nat) (m : Market) :
    mlookup (minsert l k m) k' = if k = k' then m else mlookup l k' := by
  induction l with
  | nil => by_cases h : k = k' <;> simp [minsert, mlookup, h]
  | cons e t ih =>
    obtain ⟨ke, me⟩ := e
    by_cases hk : ke = k
    · subst hk
      by_cases h : ke = k' <;> simp [minsert, mlookup, h]
    · simp only [minsert, if_neg hk]
      by_cases h : ke = k'
      · subst h
        have hkk : k ≠ ke := fun hc => hk hc.symm
        simp [mlookup, hkk]
      · simp [mlookup, h, ih]

theorem plookup_pinsert (l : List ((Nat × Nat) × UserPrediction)) (k k' : Nat × Nat)
    (u : UserPrediction) :
    plookup (pinsert l k u) k' = if k = k' then u else plookup l k' := by
  induction l with
  | nil => by_cases h : k = k' <;> simp [pinsert, plookup, h]
  | cons e t ih =>
    obtain ⟨ke, ue⟩ := e
    by_cases hk : ke = k
    · subst hk
      by_cases h : ke = k' <;> simp [pinsert, plookup, h]
    · simp only [pinsert, if_neg hk]
      by_cases h : ke = k'
      · subst h
        have hkk : k ≠ ke := fun hc => hk hc.symm
        simp [plookup, hkk]
      · simp [plookup, h, ih]

theorem mem_minsert (l : List (Nat × Market)) (k : Nat) (m : Market)
    (e : Nat × Market) (he : e ∈ minsert l k m) : e = (k, m) ∨ e ∈ l := by
  induction l with
  | nil => simpa [minsert] using he
  | cons e' t ih =>
    obtain ⟨ke, me⟩ := e'
    by_cases hk : ke = k
    · subst hk
      rcases (by simpa [minsert] using he : e = (ke, m) ∨ e ∈ t) with h | h
      · exact Or.inl h
      · exact Or.inr (List.mem_cons_of_mem _ h)
    · rcases (by simpa [minsert, hk] using he : e = (ke, me) ∨ e ∈ minsert t k m) with h | h
      · exact Or.inr (h ▸ List.mem_cons_self _ _)
      · rcases ih h with h' | h'
        · exact Or.inl h'
        · exact Or.inr (List.mem_cons_of_mem _ h')

theorem mem_pinsert (l : List ((Nat × Nat) × UserPrediction)) (k : Nat × Nat)
    (u : UserPrediction) (e : (Nat × Nat) × UserPrediction)
    (he : e ∈ pinsert l k u) : e = (k, u) ∨ e ∈ l := by
  induction l with
  | nil => simpa [pinsert] using he
  | cons e' t ih =>
    obtain ⟨ke, ue⟩ := e'
    by_cases hk : ke = k
    · subst hk
      rcases (by simpa [pinsert] using he : e = (ke, u) ∨ e ∈ t) with h | h
      · exact Or.inl h
      · exact Or.inr (List.mem_cons_of_mem _ h)
    · rcases (by simpa [pinsert, hk] using he : e = (ke, ue) ∨ e ∈ pinsert t k u) with h | h
      · exact Or.inr (h ▸ List.mem_cons_self _ _)
      · rcases ih h with h' | h'
        · exact Or.inl h'
        · exact Or.inr (List.mem_cons_of_mem _ h')

theorem mlookup_mem (l : List (Nat × Market)) (k : Nat)
    (h : mlookup l k ≠ Market.empty) : (k, mlookup l k) ∈ l := by
  induction l with
  | nil => exact absurd rfl h
  | cons e t ih =>
    obtain ⟨ke, me⟩ := e
    by_cases hk : ke = k
    · subst hk
      simp [mlookup] at h ⊢
    · simp only [mlookup, if_neg hk] at h ⊢
      exact List.mem_cons_of_mem _ (ih h)

theorem plookup_mem (l : List ((Nat × Nat) × UserPrediction)) (k : Nat × Nat)
    (h : plookup l k ≠ UserPrediction.empty) : (k, plookup l k) ∈ l := by
  induction l with
  | nil => exact absurd rfl h
  | cons e t ih =>
    obtain ⟨ke, ue⟩ := e
    by_cases hk : ke = k
    · subst hk
      simp [plookup] at h ⊢
    · simp only [plookup, if_neg hk] at h ⊢
      exact List.mem_cons_of_mem _ (ih h)

theorem mlookup_of_fresh (l : List (Nat × Market)) (k : Nat)
    (h : ∀ e ∈ l, e.1 ≠ k) : mlookup l k = Market.empty := by
  induction l with
  | nil => rfl
  | cons e t ih =>
    obtain ⟨ke, me⟩ := e
    have hk : ke ≠ k := h (ke, me) (List.mem_cons_self _ _)
    simp only [mlookup, if_neg hk]
    exact ih (fun e' he' => h e' (List.mem_cons_of_mem _ he'))

theorem stakeSum_eq_sideSum (l : List ((Nat × Nat) × UserPrediction)) (mid : Nat) :
    stakeSum l mid = sideSum l mid Prediction.Yes + sideSum l mid Prediction.No := by
  induction l with
  | nil => rfl
  | cons e t ih =>
    obtain ⟨k, u⟩ := e
    by_cases hk : k.1 = mid
    · cases hu : u.prediction <;> simp [stakeSum, sideSum, hk, hu, ih] <;> omega
    · simp [stakeSum, sideSum, hk, ih]

theorem sideSum_pinsert_of_amount_zero (l : List ((Nat × Nat) × UserPrediction))
    (k : Nat × Nat) (u : UserPrediction) (mid : Nat) (side : Prediction)
    (h : (plookup l k).amount = 0) :
    sideSum (pinsert l k u) mid side =
      sideSum l mid side + (if k.1 = mid ∧ u.prediction = side then u.amount else 0) := by
  induction l with
  | nil => simp [pinsert, sideSum]
  | cons e t ih =>
    obtain ⟨ke, ue⟩ := e
    by_cases hk : ke = k
    · subst hk
      have hue : ue.amount = 0 := by simpa [plookup] using h
      simp [pinsert, sideSum, hue]
      omega
    · have ht : (plookup t k).amount = 0 := by simpa [plookup, hk] using h
      simp [pinsert, hk, sideSum, ih ht]
      omega

theorem sideSum_pinsert_same (l : List ((Nat × Nat) × UserPrediction))
    (k : Nat × Nat) (u : UserPrediction) (mid : Nat) (side : Prediction)
    (ha : u.amount = (plookup l k).amount)
    (hp : u.prediction = (plookup l k).prediction) :
    sideSum (pinsert l k u) mid side = sideSum l mid side := by
  induction l with
  | nil =>
    have ha0 : u.amount = 0 := by simpa [plookup, UserPrediction.empty] using ha
    simp [pinsert, sideSum, ha0]
  | cons e t ih =>
    obtain ⟨ke, ue⟩ := e
    by_cases hk : ke = k
    · subst hk
      have ha' : u.amount = ue.amount := by simpa [plookup] using ha
      have hp' : u.prediction = ue.prediction := by simpa [plookup] using hp
      simp [pinsert, sideSum, ha', hp']
    · have ha' : u.amount = (plookup t k).amount := by simpa [plookup, hk] using ha
      have hp' : u.prediction = (plookup t k).prediction := by simpa [plookup, hk] using hp
      simp [pinsert, hk, sideSum, ih ha' hp']

theorem plookup_amount_le_sideSum (l : List ((Nat × Nat) × UserPrediction))
    (k : Nat × Nat) :
    (plookup l k).amount ≤ sideSum l k.1 ((plookup l k).prediction) := by
  induction l with
  | nil => simp [plookup, sideSum, UserPrediction.empty]
  | cons e t ih =>
    obtain ⟨ke, ue⟩ := e
    by_cases hk : ke = k
    · subst hk
      simp [plookup, sideSum]
    · simp only [plookup, if_neg hk, sideSum]
      exact le_add_of_nonneg_of_le (Nat.zero_le _) ih

theorem sideSum_of_fresh (l : List ((Nat × Nat) × UserPrediction)) (mid : Nat)
    (side : Prediction) (h : ∀ e ∈ l, e.1.1 ≠ mid) : sideSum l mid side = 0 := by
  induction l with
  | nil => rfl
  | cons e t ih =>
    obtain ⟨ke, ue⟩ := e
    have hk : ke.1 ≠ mid := h (ke, ue) (List.mem_cons_self _ _)
    simp only [sideSum]
    rw [if_neg (fun hc => hk hc.1), ih (fun e' he' => h e' (List.mem_cons_of_mem _ he'))]

/-! ## The truncating-division payout bound -/

theorem payout_le_div_sum (stakes : List Nat) (tp w : Nat) :
    (stakes.map (fun st => st * tp / w)).sum ≤ stakes.sum * tp / w := by
  induction stakes with
  | nil => simp
  | cons st t ih =>
    calc (((st :: t).map (fun x => x * tp / w)).sum)
        = st * tp / w + (t.map (fun x => x * tp / w)).sum := by simp
      _ ≤ st * tp / w + t.sum * tp / w := Nat.add_le_add_left ih _
      _ ≤ (st * tp + t.sum * tp) / w := Nat.add_div_le_add_div _ _ _
      _ = (st :: t).sum * tp / w := by rw [List.sum_cons, Nat.add_mul]

theorem mul_div_self_le (a b : Nat) : a * b / b ≤ a := by
  rcases Nat.eq_zero_or_pos b with h | h
  · simp [h]
  · rw [Nat.mul_div_cancel _ h]

theorem winners_payout_le (stakes : List Nat) (tp w : Nat) (h : stakes.sum ≤ w) :
    (stakes.map (fun st => st * tp / w)).sum ≤ tp :=
  calc (stakes.map (fun st => st * tp / w)).sum
      ≤ stakes.sum * tp / w := payout_le_div_sum stakes tp w
    _ ≤ w * tp / w := Nat.div_le_div_right (Nat.mul_le_mul_right _ h)
    _ ≤ tp := by rw [Nat.mul_comm]; exact mul_div_self_le tp w

/-! ## The ledger invariant

`Inv` holds in every reachable state: stored keys are below the id
counter, each pool equals the recorded stake on its side, and an
unsettled market still carries the zero-initialised settlement fields. -/

def Inv (s : ContractState) : Prop :=
  (∀ e ∈ s.markets, e.1 < s.nextMarketId) ∧
  (∀ e ∈ s.predictions, e.1.1 < s.nextMarketId) ∧
  (∀ mid, (mlookup s.markets mid).totalYesPool = sideSum s.predictions mid Prediction.Yes ∧
          (mlookup s.markets mid).totalNoPool = sideSum s.predictions mid Prediction.No) ∧
  (∀ mid, (mlookup s.markets mid).settled = false →
      (mlookup s.markets mid).outcome = Prediction.Yes ∧
      (mlookup s.markets mid).confidence = 0 ∧
      (mlookup s.markets mid).settledAt = 0)

theorem Inv_initial (forwarder : Nat) : Inv (initialState forwarder) := by
  refine ⟨by simp [initialState], by simp [initialState], ?_, ?_⟩
  · intro mid
    simp [initialState, mlookup, sideSum, Market.empty]
  · intro mid _
    simp [initialState, mlookup, Market.empty]

theorem Inv_create (s : ContractState) (sender timestamp : Nat) (question : List Nat)
    (hs : Inv s) : Inv (createMarket s sender timestamp question).1 := by
  obtain ⟨hkm, hkp, hpool, hdef⟩ := hs
  have hfresh : ∀ e ∈ s.predictions, e.1.1 ≠ s.nextMarketId :=
    fun e he => Nat.ne_of_lt (hkp e he)
  refine ⟨?_, ?_, ?_, ?_⟩
  · intro e he
    rcases mem_minsert _ _ _ _ (by simpa [createMarket] using he) with h | h
    · simp [createMarket, h]
    · simpa [createMarket] using Nat.lt_succ_of_lt (hkm e h)
  · intro e he
    simp only [createMarket] at he ⊢
    exact Nat.lt_succ_of_lt (hkp e he)
  · intro mid
    simp only [createMarket, mlookup_minsert]
    by_cases h : s.nextMarketId = mid
    · subst h
      rw [if_pos rfl]
      constructor <;>
        simp [sideSum_of_fresh s.predictions s.nextMarketId _ hfresh]
    · rw [if_neg h]
      exact hpool mid
  · intro mid
    simp only [createMarket, mlookup_minsert]
    by_cases h : s.nextMarketId = mid
    · subst h
      rw [if_pos rfl]
      intro _
      exact ⟨rfl, rfl, rfl⟩
    · rw [if_neg h]
      exact hdef mid

/-- What a successful `predict` did: the four checks passed, the stake
was recorded, and it was added to the pool of the chosen side. -/
theorem predict_ok_spec (s : ContractState) (sender marketId : Nat) (p : Prediction)
    (v : Nat) (r : ContractState × Event)
    (h : predict s sender marketId p v = .ok r) :
    (mlookup s.markets marketId).creator ≠ 0 ∧
    (mlookup s.markets marketId).settled = false ∧ v ≠ 0 ∧
    (plookup s.predictions (marketId, sender)).amount = 0 ∧
    r.1.forwarderAddress = s.forwarderAddress ∧
    r.1.expectedAuthor = s.expectedAuthor ∧
    r.1.expectedWorkflowName = s.expectedWorkflowName ∧
    r.1.expectedWorkflowId = s.expectedWorkflowId ∧
    r.1.nextMarketId = s.nextMarketId ∧
    r.1.predictions = pinsert s.predictions (marketId, sender)
      { amount := v, prediction := p, claimed := false } ∧
    (let m := mlookup s.markets marketId
     (p = Prediction.Yes ∧
        r.1.markets = minsert s.markets marketId
          { m with totalYesPool := m.totalYesPool + v }) ∨
     (p = Prediction.No ∧
        r.1.markets = minsert s.markets marketId
          { m with totalNoPool := m.totalNoPool + v })) ∧
    r.2 = Event.PredictionMade marketId sender p v := by
  simp only [predict] at h
  split at h
  next h1 => simp at h
  next h1 =>
    split at h
    next h2 => simp at h
    next h2 =>
      split at h
      next h3 => simp at h
      next h3 =>
        split at h
        next h4 => simp at h
        next h4 =>
          simp only [Except.ok.injEq] at h
          subst h
          refine ⟨h1, by simpa using h2, h3, by simpa using h4,
            ?_, ?_, ?_, ?_, ?_, ?_, ?_, rfl⟩ <;> cases p <;> simp

/-- What a successful `requestSettlement` did: both checks passed and
the state is returned untouched with the `SettlementRequested` event. -/
theorem requestSettlement_ok_spec (s : ContractState) (sender marketId : Nat)
    (r : ContractState × Event) (h : requestSettlement s sender marketId = .ok r) :
    (mlookup s.markets marketId).creator ≠ 0 ∧
    (mlookup s.markets marketId).settled = false ∧
    r = (s, Event.SettlementRequested marketId (mlookup s.markets marketId).question) := by
  simp only [requestSettlement] at h
  split at h
  next h1 => simp at h
  next h1 =>
    split at h
    next h2 => simp at h
    next h2 =>
      simp only [Except.ok.injEq] at h
      exact ⟨h1, by simpa using h2, h.symm⟩

/-- What a successful `_settleMarket` did. -/
theorem settleMarket_ok_spec (s : ContractState) (marketId : Nat) (outcome : Prediction)
    (confidence timestamp : Nat) (r : ContractState × Event)
    (h : settleMarket s marketId outcome confidence timestamp = .ok r) :
    (mlookup s.markets marketId).creator ≠ 0 ∧
    (mlookup s.markets marketId).settled = false ∧
    r.1 = { s with markets := minsert s.markets marketId
                     { mlookup s.markets marketId with
                       settled := true, confidence := confidence,
                       settledAt := timestamp % 2 ^ 48, outcome := outcome } } ∧
    r.2 = Event.MarketSettled marketId outcome confidence := by
  simp only [settleMarket] at h
  split at h
  next h1 => simp at h
  next h1 =>
    split at h
    next h2 => simp at h
    next h2 =>
      simp only [Except.ok.injEq] at h
      subst h
      exact ⟨h1, by simpa using h2, rfl, rfl⟩

/-- What a successful `claim` did: the five checks passed, the stake
record was marked claimed and the event carries the truncated
proportional payout. -/
theorem claim_ok_spec (s : ContractState) (sender marketId : Nat) (transferOk : Bool)
    (r : ContractState × Event) (h : claim s sender marketId transferOk = .ok r) :
    (mlookup s.markets marketId).creator ≠ 0 ∧
    (mlookup s.markets marketId).settled = true ∧
    (plookup s.predictions (marketId, sender)).amount ≠ 0 ∧
    (plookup s.predictions (marketId, sender)).claimed = false ∧
    (plookup s.predictions (marketId, sender)).prediction =
      (mlookup s.markets marketId).outcome ∧
    transferOk = true ∧
    r.1 = { s with predictions :=
                     pinsert s.predictions (marketId, sender)
                       { plookup s.predictions (marketId, sender) with claimed := true } } ∧
    r.2 = Event.WinningsClaimed marketId sender
      ((plookup s.predictions (marketId, sender)).amount *
        ((mlookup s.markets marketId).totalYesPool +
          (mlookup s.markets marketId).totalNoPool) /
        (if (mlookup s.markets marketId).outcome = Prediction.Yes then
          (mlookup s.markets marketId).totalYesPool
         else (mlookup s.markets marketId).totalNoPool)) := by
  simp only [claim] at h
  split at h
  next h1 => simp at h
  next h1 =>
    split at h
    next h2 => simp at h
    next h2 =>
      split at h
      next h3 => simp at h
      next h3 =>
        split at h
        next h4 => simp at h
        next h4 =>
          split at h
          next h5 => simp at h
          next h5 =>
            split at h
            next h6 =>
              simp only [Except.ok.injEq] at h
              subst h
              refine ⟨h1, by simpa using h2, h3, by simpa using h4,
                by simpa using h5, h6, rfl, rfl⟩
            next h6 => simp at h

/-! ## Invariant preservation -/

theorem Inv_predict (s : ContractState) (sender marketId : Nat) (p : Prediction)
    (v : Nat) (r : ContractState × Event)
    (h : predict s sender marketId p v = .ok r) (hs : Inv s) : Inv r.1 := by
  obtain ⟨hkm, hkp, hpool, hdef⟩ := hs
  obtain ⟨hc, hset, hv, hup, _, _, _, _, hnext, hpreds, hmk, hev⟩ :=
    predict_ok_spec _ _ _ _ _ _ h
  have hmem : (marketId, mlookup s.markets marketId) ∈ s.markets :=
    mlookup_mem s.markets marketId (fun he => hc (by rw [he]; rfl))
  have hmid : marketId < s.nextMarketId := hkm _ hmem
  have hkeysM : ∀ e ∈ r.1.markets, e.1 < r.1.nextMarketId := by
    intro e he
    rw [hnext]
    rcases hmk with ⟨hp, hmk⟩ | ⟨hp, hmk⟩ <;> rw [hmk] at he <;>
      rcases mem_minsert _ _ _ _ he with h' | h' <;>
        first
          | (rw [h']; exact hmid)
          | exact hkm e h'
  have hkeysP : ∀ e ∈ r.1.predictions, e.1.1 < r.1.nextMarketId := by
    intro e he
    rw [hnext]
    rw [hpreds] at he
    rcases mem_pinsert _ _ _ _ he with h' | h'
    · rw [h']; exact hmid
    · exact hkp e h'
  refine ⟨hkeysM, hkeysP, ?_, ?_⟩
  · intro mid
    have hside := fun side =>
      sideSum_pinsert_of_amount_zero s.predictions (marketId, sender)
        { amount := v, prediction := p, claimed := false } mid side hup
    rcases hmk with ⟨hp, hmk⟩ | ⟨hp, hmk⟩ <;> subst hp <;>
      rw [hmk, hpreds, mlookup_minsert] <;>
      by_cases hm : marketId = mid
    · subst hm
      rw [if_pos rfl]
      constructor
      · rw [hside Prediction.Yes]
        simp [(hpool marketId).1]
      · rw [hside Prediction.No]
        simp [(hpool marketId).2]
    · rw [if_neg hm, hside Prediction.Yes, hside Prediction.No]
      simp only [hm, false_and, if_false, Nat.add_zero]
      exact hpool mid
    · subst hm
      rw [if_pos rfl]
      constructor
      · rw [hside Prediction.Yes]
        simp [(hpool marketId).1]
      · rw [hside Prediction.No]
        simp [(hpool marketId).2]
    · rw [if_neg hm, hside Prediction.Yes, hside Prediction.No]
      simp only [hm, false_and, if_false, Nat.add_zero]
      exact hpool mid
  · intro mid
    rcases hmk with ⟨hp, hmk⟩ | ⟨hp, hmk⟩ <;> rw [hmk, mlookup_minsert] <;>
      by_cases hm : marketId = mid
    · subst hm
      rw [if_pos rfl]
      intro _
      simpa using hdef marketId hset
    · rw [if_neg hm]; exact hdef mid
    · subst hm
      rw [if_pos rfl]
      intro _
      simpa using hdef marketId hset
    · rw [if_neg hm]; exact hdef mid

theorem Inv_settle (s : ContractState) (marketId : Nat) (outcome : Prediction)
    (confidence timestamp : Nat) (r : ContractState × Event)
    (h : settleMarket s marketId outcome confidence timestamp = .ok r) (hs : Inv s) :
    Inv r.1 := by
  obtain ⟨hkm, hkp, hpool, hdef⟩ := hs
  obtain ⟨hc, hset, hst, hev⟩ := settleMarket_ok_spec _ _ _ _ _ _ h
  have hmem : (marketId, mlookup s.markets marketId) ∈ s.markets :=
    mlookup_mem s.markets marketId (fun he => hc (by rw [he]; rfl))
  have hmid : marketId < s.nextMarketId := hkm _ hmem
  rw [hst]
  refine ⟨?_, hkp, ?_, ?_⟩
  · intro e he
    rcases mem_minsert _ _ _ _ he with h' | h'
    · rw [h']; exact hmid
    · exact hkm e h'
  · intro mid
    rw [mlookup_minsert]
    by_cases hm : marketId = mid
    · subst hm
      rw [if_pos rfl]
      exact hpool marketId
    · rw [if_neg hm]; exact hpool mid
  · intro mid
    rw [mlookup_minsert]
    by_cases hm : marketId = mid
    · subst hm
      rw [if_pos rfl]
      intro hfalse
      simp at hfalse
    · rw [if_neg hm]; exact hdef mid

theorem Inv_claim (s : ContractState) (sender marketId : Nat) (transferOk : Bool)
    (r : ContractState × Event)
    (h : claim s sender marketId transferOk = .ok r) (hs : Inv s) : Inv r.1 := by
  obtain ⟨hkm, hkp, hpool, hdef⟩ := hs
  obtain ⟨hc, hset, hup, hcl, hpr, htr, hst, hev⟩ := claim_ok_spec _ _ _ _ _ h
  have hmemp : ((marketId, sender), plookup s.predictions (marketId, sender)) ∈
      s.predictions :=
    plookup_mem s.predictions (marketId, sender) (fun he => hup (by rw [he]; rfl))
  have hmid : marketId < s.nextMarketId := hkp _ hmemp
  rw [hst]
  refine ⟨hkm, ?_, ?_, hdef⟩
  · intro e he
    rcases mem_pinsert _ _ _ _ he with h' | h'
    · rw [h']; exact hmid
    · exact hkp e h'
  · intro mid
    dsimp only
    rw [sideSum_pinsert_same s.predictions (marketId, sender)
          { amount := (plookup s.predictions (marketId, sender)).amount,
            prediction := (plookup s.predictions (marketId, sender)).prediction,
            claimed := true } mid Prediction.Yes rfl rfl,
        sideSum_pinsert_same s.predictions (marketId, sender)
          { amount := (plookup s.predictions (marketId, sender)).amount,
            prediction := (plookup s.predictions (marketId, sender)).prediction,
            claimed := true } mid Prediction.No rfl rfl]
    exact hpool mid

/-- A successful `onReport` only wraps `_processReport` in access checks. -/
theorem onReport_ok_processReport (s : ContractState) (sender timestamp : Nat)
    (metadata report : List Nat) (r : ContractState × Event)
    (h : onReport s sender timestamp metadata report = .ok r) :
    processReport s sender timestamp report = .ok r := by
  simp only [onReport] at h
  repeat' split at h
  all_goals first | exact h | simp at h

/-- A successful `_processReport` either settled a market or created one. -/
theorem processReport_ok_cases (s : ContractState) (sender timestamp : Nat)
    (report : List Nat) (r : ContractState × Event)
    (h : processReport s sender timestamp report = .ok r) :
    (∃ marketId outcome confidence,
        settleMarket s marketId outcome confidence timestamp = .ok r) ∨
    (∃ question, r.1 = (createMarket s sender timestamp question).1) := by
  cases report with
  | nil =>
    simp only [processReport] at h
    split at h
    next q hq =>
      simp only [Except.ok.injEq] at h
      exact Or.inr ⟨q, by rw [← h]⟩
    next => simp at h
  | cons b rest =>
    simp only [processReport] at h
    split at h
    next hb =>
      split at h
      next marketId outcome confidence hd => exact Or.inl ⟨marketId, outcome, confidence, h⟩
      next => simp at h
    next hb =>
      split at h
      next q hq =>
        simp only [Except.ok.injEq] at h
        exact Or.inr ⟨q, by rw [← h]⟩
      next => simp at h

theorem reachable_inv (s : ContractState) (h : Reachable s) : Inv s := by
  induction h with
  | deployed forwarder hf => exact Inv_initial forwarder
  | create s sender timestamp question _ ih => exact Inv_create s sender timestamp question ih
  | predictTx s sender marketId prediction msgValue _ ih =>
    unfold stepPredict
    split
    next r hr => exact Inv_predict s sender marketId prediction msgValue r hr ih
    next => exact ih
  | requestTx s sender marketId _ ih =>
    unfold stepRequestSettlement
    split
    next r hr =>
      obtain ⟨-, -, hre⟩ := requestSettlement_ok_spec s sender marketId r hr
      rw [hre]
      exact ih
    next => exact ih
  | reportTx s sender timestamp metadata report _ ih =>
    unfold stepOnReport
    split
    next r hr =>
      have hp := onReport_ok_processReport s sender timestamp metadata report r hr
      rcases processReport_ok_cases s sender timestamp report r hp with
        ⟨marketId, outcome, confidence, hset⟩ | ⟨question, hcr⟩
      · exact Inv_settle s marketId outcome confidence timestamp r hset ih
      · rw [hcr]
        exact Inv_create s sender timestamp question ih
    next => exact ih
  | claimTx s sender marketId transferOk _ ih =>
    unfold stepClaim
    split
    next r hr => exact Inv_claim s sender marketId transferOk r hr ih
    next => exact ih
  | config s f a n i _ ih =>
    obtain ⟨hkm, hkp, hpool, hdef⟩ := ih
    exact ⟨hkm, hkp, hpool, hdef⟩

/-! ## Pool monotonicity over predict sequences -/

theorem stepPredict_pool_mono (s : ContractState) (sender marketId : Nat)
    (p : Prediction) (v mid : Nat) :
    (getMarket s mid).totalYesPool ≤
      (getMarket (stepPredict s sender marketId p v) mid).totalYesPool ∧
    (getMarket s mid).totalNoPool ≤
      (getMarket (stepPredict s sender marketId p v) mid).totalNoPool := by
  unfold stepPredict
  split
  next r hr =>
    obtain ⟨-, -, -, -, -, -, -, -, -, -, hmk, -⟩ := predict_ok_spec _ _ _ _ _ _ hr
    rcases hmk with ⟨hp, hmk⟩ | ⟨hp, hmk⟩ <;>
      simp only [getMarket, hmk, mlookup_minsert] <;>
      by_cases hm : marketId = mid
    · subst hm; simp
    · rw [if_neg hm]; exact ⟨le_refl _, le_refl _⟩
    · subst hm; simp
    · rw [if_neg hm]; exact ⟨le_refl _, le_refl _⟩
  next => exact ⟨le_refl _, le_refl _⟩

theorem runPredicts_reachable (s : ContractState) (calls : List PredictCall)
    (hr : Reachable s) : Reachable (runPredicts s calls) := by
  induction calls generalizing s with
  | nil => exact hr
  | cons c t ih =>
    exact ih _ (Reachable.predictTx s c.sender c.marketId c.prediction c.msgValue hr)

theorem runPredicts_pool_mono (s : ContractState) (calls : List PredictCall) (mid : Nat) :
    (getMarket s mid).totalYesPool ≤ (getMarket (runPredicts s calls) mid).totalYesPool ∧
    (getMarket s mid).totalNoPool ≤ (getMarket (runPredicts s calls) mid).totalNoPool := by
  induction calls generalizing s with
  | nil => exact ⟨le_refl _, le_refl _⟩
  | cons c t ih =>
    have h1 := stepPredict_pool_mono s c.sender c.marketId c.prediction c.msgValue mid
    have h2 := ih (stepPredict s c.sender c.marketId c.prediction c.msgValue)
    exact ⟨h1.1.trans h2.1, h1.2.trans h2.2⟩

/-! ## `onReport` can only fail with its own errors or the ledger's -/

theorem settleMarket_ne_invalidSender (s : ContractState) (marketId : Nat)
    (outcome : Prediction) (confidence timestamp : Nat) :
    settleMarket s marketId outcome confidence timestamp ≠ .error Err.InvalidSender := by
  simp only [settleMarket]
  split
  · simp
  · split <;> simp

theorem processReport_ne_invalidSender (s : ContractState) (sender timestamp : Nat)
    (report : List Nat) :
    processReport s sender timestamp report ≠ .error Err.InvalidSender := by
  cases report with
  | nil =>
    simp only [processReport]
    split <;> simp
  | cons b rest =>
    simp only [processReport]
    split
    · split
      · exact settleMarket_ne_invalidSender _ _ _ _ _
      · simp
    · split <;> simp

/-! ## The claims -/

/-- C1: every successful `claim` pays out exactly
`floor(stake * (totalYesPool + totalNoPool) / winningPool)` where
`winningPool` is the pool matching the settled outcome, and for any
collection of winning stakes totalling at most the winning pool the sum
of such payouts never exceeds the total pool. -/
theorem claim_payout_law (s : ContractState) (sender marketId : Nat) (transferOk : Bool)
    (r : ContractState × Event) (h : claim s sender marketId transferOk = .ok r) :
    r.2 = Event.WinningsClaimed marketId sender
      ((getPrediction s marketId sender).amount *
        ((getMarket s marketId).totalYesPool + (getMarket s marketId).totalNoPool) /
        (if (getMarket s marketId).outcome = Prediction.Yes then
           (getMarket s marketId).totalYesPool
         else (getMarket s marketId).totalNoPool)) ∧
    ∀ stakes : List Nat,
      stakes.sum ≤ (if (getMarket s marketId).outcome = Prediction.Yes then
          (getMarket s marketId).totalYesPool
        else (getMarket s marketId).totalNoPool) →
      (stakes.map (fun st => st *
          ((getMarket s marketId).totalYesPool + (getMarket s marketId).totalNoPool) /
          (if (getMarket s marketId).outcome = Prediction.Yes then
             (getMarket s marketId).totalYesPool
           else (getMarket s marketId).totalNoPool))).sum ≤
        (getMarket s marketId).totalYesPool + (getMarket s marketId).totalNoPool := by
  obtain ⟨-, -, -, -, -, -, -, hev⟩ := claim_ok_spec _ _ _ _ _ h
  exact ⟨hev, fun stakes hsum => winners_payout_le stakes _ _ hsum⟩

/-- Witness for C1 on the book's scenario: A's claim pays
`100 * 150 / 100 = 150` and two winning stakes summing to the winning
pool pay out at most the total pool. -/
theorem claim_payout_law_witness :
    claim scenarioState 10 0 true =
      .ok (scenarioClaimed, Event.WinningsClaimed 0 10 150) ∧
    Event.WinningsClaimed 0 10 150 = Event.WinningsClaimed 0 10
      ((getPrediction scenarioState 0 10).amount *
        ((getMarket scenarioState 0).totalYesPool + (getMarket scenarioState 0).totalNoPool) /
        (if (getMarket scenarioState 0).outcome = Prediction.Yes then
           (getMarket scenarioState 0).totalYesPool
         else (getMarket scenarioState 0).totalNoPool)) ∧
    ([60, 40].map (fun st => st *
        ((getMarket scenarioState 0).totalYesPool + (getMarket scenarioState 0).totalNoPool) /
        (if (getMarket scenarioState 0).outcome = Prediction.Yes then
           (getMarket scenarioState 0).totalYesPool
         else (getMarket scenarioState 0).totalNoPool))).sum ≤
      (getMarket scenarioState 0).totalYesPool + (getMarket scenarioState 0).totalNoPool := by
  have h : claim scenarioState 10 0 true =
      .ok (scenarioClaimed, Event.WinningsClaimed 0 10 150) := by rfl
  have ht := claim_payout_law scenarioState 10 0 true
    (scenarioClaimed, Event.WinningsClaimed 0 10 150) h
  exact ⟨h, ht.1, ht.2 [60, 40] (by decide)⟩

/-- C5: settling an already-settled (existing) market fails with
`MarketAlreadySettled` and settling a never-created market id fails
with `MarketDoesNotExist`; a failing call is a revert, so the stored
`outcome`, `confidence`, `settledAt` and `settled` fields are left
untouched (the `Except.error` result carries no successor state). -/
theorem settle_idempotent (s : ContractState) (marketId : Nat) (outcome : Prediction)
    (confidence timestamp : Nat) :
    ((getMarket s marketId).creator ≠ 0 → (getMarket s marketId).settled = true →
      settleMarket s marketId outcome confidence timestamp =
        .error Err.MarketAlreadySettled) ∧
    ((getMarket s marketId).creator = 0 →
      settleMarket s marketId outcome confidence timestamp =
        .error Err.MarketDoesNotExist) := by
  constructor
  · intro hex hset
    simp only [getMarket] at hex hset
    simp only [settleMarket]
    rw [if_neg hex, if_pos hset]
  · intro h0
    simp only [getMarket] at h0
    simp only [settleMarket]
    rw [if_pos h0]

/-- Witness for C5: re-settling the settled scenario market fails with
`MarketAlreadySettled`; settling the never-created id 5 fails with
`MarketDoesNotExist`. -/
theorem settle_idempotent_witness :
    settleMarket scenarioState 0 Prediction.No 1 99 = .error Err.MarketAlreadySettled ∧
    settleMarket scenarioState 5 Prediction.Yes 1 99 = .error Err.MarketDoesNotExist :=
  ⟨(settle_idempotent scenarioState 0 Prediction.No 1 99).1 (by decide) (by decide),
   (settle_idempotent scenarioState 5 Prediction.Yes 1 99).2 (by decide)⟩

/-- C8: `createMarket` has no revert path (it is a total function); the
created market read back through `getMarket` at the returned id has the
given question, `settled = false` and both pools zero (and the caller
as creator, `uint48`-truncated timestamp, zeroed settlement fields);
the returned id is the current `nextMarketId` counter value and the
counter moves to its successor, so consecutive creations get sequential
distinct ids. -/
theorem createMarket_roundtrip (s : ContractState) (sender timestamp : Nat)
    (question : List Nat) :
    getMarket (createMarket s sender timestamp question).1
        (createMarket s sender timestamp question).2.1 =
      { creator := sender, createdAt := timestamp % 2 ^ 48, settledAt := 0,
        settled := false, confidence := 0, outcome := Prediction.Yes,
        totalYesPool := 0, totalNoPool := 0, question := question } ∧
    (createMarket s sender timestamp question).2.1 = s.nextMarketId ∧
    (createMarket s sender timestamp question).1.nextMarketId = s.nextMarketId + 1 := by
  refine ⟨?_, rfl, rfl⟩
  simp [createMarket, getMarket, mlookup_minsert]

/-- C9: a successful `requestSettlement` returns the input state
itself — every market record, every prediction record and the id
counter are untouched — together with the `SettlementRequested`
notification; it succeeds exactly under the two preconditions (market
exists, not settled); and its result never depends on the caller
address. -/
theorem requestSettlement_pure (s : ContractState) (sender marketId : Nat) :
    (∀ r, requestSettlement s sender marketId = .ok r →
      r = (s, Event.SettlementRequested marketId (getMarket s marketId).question)) ∧
    ((getMarket s marketId).creator ≠ 0 → (getMarket s marketId).settled = false →
      requestSettlement s sender marketId =
        .ok (s, Event.SettlementRequested marketId (getMarket s marketId).question)) ∧
    (∀ sender2, requestSettlement s sender marketId =
      requestSettlement s sender2 marketId) := by
  refine ⟨?_, ?_, fun sender2 => rfl⟩
  · intro r hr
    exact (requestSettlement_ok_spec s sender marketId r hr).2.2
  · intro hex hset
    simp only [getMarket] at hex hset
    simp only [requestSettlement]
    rw [if_neg hex, if_neg (by simp [hset])]
    rfl

/-- Witness for C9: requesting settlement of the open boot market
returns the state unchanged with only the notification. -/
theorem requestSettlement_pure_witness :
    requestSettlement bootState 4 0 =
      .ok (bootState, Event.SettlementRequested 0 (getMarket bootState 0).question) ∧
    requestSettlement bootState 4 0 = requestSettlement bootState 9 0 :=
  ⟨(requestSettlement_pure bootState 4 0).2.1 (by decide) (by decide),
   (requestSettlement_pure bootState 4 0).2.2 9⟩

/-- C10: in every reachable state, a market that is not settled (in
particular any created-but-unsettled market) still shows the
zero-initialised settlement fields through `getMarket`: `outcome` is
`Yes` (the enum's first member), `confidence` is `0` and `settledAt` is
`0` — indistinguishable from a genuine Yes settlement except through
the `settled` flag. -/
theorem unsettled_default_fields (s : ContractState) (marketId : Nat)
    (hr : Reachable s) (hset : (getMarket s marketId).settled = false) :
    (getMarket s marketId).outcome = Prediction.Yes ∧
    (getMarket s marketId).confidence = 0 ∧
    (getMarket s marketId).settledAt = 0 :=
  (reachable_inv s hr).2.2.2 marketId hset

/-- Witness for C10 at the reachable open boot market. -/
theorem unsettled_default_fields_witness :
    (getMarket bootState 0).outcome = Prediction.Yes ∧
    (getMarket bootState 0).confidence = 0 ∧
    (getMarket bootState 0).settledAt = 0 :=
  unsettled_default_fields bootState 0
    (Reachable.create (initialState 1) 7 0 [81] (Reachable.deployed 1 (by decide)))
    (by decide)

/-- C2: in every reachable state the two pools of a market sum to the
total stake recorded in its `UserPrediction` records; each successful
`predict` adds its stake to exactly one of the two pools (and leaves
the other unchanged); and over any further sequence of `predict`
transactions the accounting identity is maintained and neither pool
ever decreases. -/
theorem predict_pool_accounting (s : ContractState) (marketId : Nat) (hr : Reachable s) :
    (getMarket s marketId).totalYesPool + (getMarket s marketId).totalNoPool =
      stakeSum s.predictions marketId ∧
    (∀ sender p v r, predict s sender marketId p v = .ok r →
      ((getMarket r.1 marketId).totalYesPool = (getMarket s marketId).totalYesPool + v ∧
        (getMarket r.1 marketId).totalNoPool = (getMarket s marketId).totalNoPool) ∨
      ((getMarket r.1 marketId).totalYesPool = (getMarket s marketId).totalYesPool ∧
        (getMarket r.1 marketId).totalNoPool = (getMarket s marketId).totalNoPool + v)) ∧
    (∀ calls : List PredictCall,
      (getMarket (runPredicts s calls) marketId).totalYesPool +
        (getMarket (runPredicts s calls) marketId).totalNoPool =
        stakeSum (runPredicts s calls).predictions marketId ∧
      (getMarket s marketId).totalYesPool ≤
        (getMarket (runPredicts s calls) marketId).totalYesPool ∧
      (getMarket s marketId).totalNoPool ≤
        (getMarket (runPredicts s calls) marketId).totalNoPool) := by
  have key : ∀ s2 : ContractState, Inv s2 →
      (getMarket s2 marketId).totalYesPool + (getMarket s2 marketId).totalNoPool =
        stakeSum s2.predictions marketId := by
    intro s2 hinv
    obtain ⟨-, -, hpool, -⟩ := hinv
    simp only [getMarket]
    rw [(hpool marketId).1, (hpool marketId).2, stakeSum_eq_sideSum]
  refine ⟨key s (reachable_inv s hr), ?_, ?_⟩
  · intro sender p v r h
    obtain ⟨-, -, -, -, -, -, -, -, -, -, hmk, -⟩ := predict_ok_spec _ _ _ _ _ _ h
    rcases hmk with ⟨hp, hmk⟩ | ⟨hp, hmk⟩
    · left
      simp [getMarket, hmk, mlookup_minsert]
    · right
      simp [getMarket, hmk, mlookup_minsert]
  · intro calls
    exact ⟨key (runPredicts s calls)
        (reachable_inv _ (runPredicts_reachable s calls hr)),
      (runPredicts_pool_mono s calls marketId).1,
      (runPredicts_pool_mono s calls marketId).2⟩

/-- Witness for C2: on the freshly created boot market the identity
`0 + 0 = 0` holds, and after the staking sequence (A: 100 on Yes,
B: 50 on No) the pools sum to the recorded stake and have not
decreased. -/
theorem predict_pool_accounting_witness :
    ((getMarket bootState 0).totalYesPool + (getMarket bootState 0).totalNoPool =
      stakeSum bootState.predictions 0) ∧
    ((getMarket (runPredicts bootState
          [⟨10, 0, Prediction.Yes, 100⟩, ⟨11, 0, Prediction.No, 50⟩]) 0).totalYesPool +
        (getMarket (runPredicts bootState
          [⟨10, 0, Prediction.Yes, 100⟩, ⟨11, 0, Prediction.No, 50⟩]) 0).totalNoPool =
        stakeSum (runPredicts bootState
          [⟨10, 0, Prediction.Yes, 100⟩, ⟨11, 0, Prediction.No, 50⟩]).predictions 0) := by
  have hr : Reachable bootState :=
    Reachable.create (initialState 1) 7 0 [81] (Reachable.deployed 1 (by decide))
  have ht := predict_pool_accounting bootState 0 hr
  exact ⟨ht.1, (ht.2.2 [⟨10, 0, Prediction.Yes, 100⟩, ⟨11, 0, Prediction.No, 50⟩]).1⟩

/-- C3 counterexample: address 5 already holds a recorded stake of 100
on market 0 of `c3State`, yet a second `predict` with amount 0 fails
with `InvalidAmount` — not `AlreadyPredicted` — because the
`msg.value == 0` check comes before the prior-stake check. -/
theorem predict_second_zero_amount_cex :
    (getPrediction c3State 0 5).amount ≠ 0 ∧
    predict c3State 5 0 Prediction.No 0 = .error Err.InvalidAmount ∧
    Err.InvalidAmount ≠ Err.AlreadyPredicted :=
  ⟨by decide, by rfl, by decide⟩

/-- C3 (amended): a second `predict` by an address with a recorded
stake fails with `AlreadyPredicted` for every side and every nonzero
amount, provided the market (still) exists and is not settled; a zero
amount instead fails earlier with `InvalidAmount`. -/
theorem predict_second_fails (s : ContractState) (sender marketId : Nat)
    (p : Prediction) (v : Nat)
    (hstake : (getPrediction s marketId sender).amount ≠ 0)
    (hex : (getMarket s marketId).creator ≠ 0)
    (hset : (getMarket s marketId).settled = false)
    (hv : v ≠ 0) :
    predict s sender marketId p v = .error Err.AlreadyPredicted := by
  simp only [getPrediction] at hstake
  simp only [getMarket] at hex hset
  simp only [predict]
  rw [if_neg hex, if_neg (by simp [hset]), if_neg hv, if_pos hstake]

/-- Witness for C3 (amended): the second stake attempt by address 5
with a positive amount fails with `AlreadyPredicted` on either side. -/
theorem predict_second_fails_witness :
    predict c3State 5 0 Prediction.No 7 = .error Err.AlreadyPredicted ∧
    predict c3State 5 0 Prediction.Yes 1 = .error Err.AlreadyPredicted :=
  ⟨predict_second_fails c3State 5 0 Prediction.No 7
      (by decide) (by decide) (by decide) (by decide),
   predict_second_fails c3State 5 0 Prediction.Yes 1
      (by decide) (by decide) (by decide) (by decide)⟩

/-- C4: in every reachable state, whenever a caller passes all five
`claim` preconditions (market exists, settled, nonzero stake, not yet
claimed, stake on the settled outcome's side), the winning pool used as
the division denominator is strictly positive — the caller's own stake
is counted in that pool — so the payout division never divides by
zero. -/
theorem claim_division_safe (s : ContractState) (sender marketId : Nat)
    (hr : Reachable s)
    (hex : (getMarket s marketId).creator ≠ 0)
    (hset : (getMarket s marketId).settled = true)
    (hstake : (getPrediction s marketId sender).amount ≠ 0)
    (hncl : (getPrediction s marketId sender).claimed = false)
    (hside : (getPrediction s marketId sender).prediction = (getMarket s marketId).outcome) :
    0 < (if (getMarket s marketId).outcome = Prediction.Yes then
          (getMarket s marketId).totalYesPool
        else (getMarket s marketId).totalNoPool) := by
  obtain ⟨-, -, hpool, -⟩ := reachable_inv s hr
  have hle := plookup_amount_le_sideSum s.predictions (marketId, sender)
  simp only [getPrediction] at hstake hside
  simp only [getMarket] at hex hset hside ⊢
  rw [hside] at hle
  cases ho : (mlookup s.markets marketId).outcome with
  | Yes =>
    rw [ho] at hle
    rw [if_pos rfl]
    have h1 := (hpool marketId).1
    have h2 : (plookup s.predictions (marketId, sender)).amount ≤
        sideSum s.predictions marketId Prediction.Yes := hle
    omega
  | No =>
    rw [ho] at hle
    rw [if_neg (by simp)]
    have h1 := (hpool marketId).2
    have h2 : (plookup s.predictions (marketId, sender)).amount ≤
        sideSum s.predictions marketId Prediction.No := hle
    omega

/-- Witness for C4: in the reachable settled state (deploy, create,
stake 100 on Yes, settle Yes through `onReport`), address 10 passes all
preconditions and the winning pool is positive. -/
theorem claim_division_safe_witness :
    0 < (if (getMarket settledState 0).outcome = Prediction.Yes then
          (getMarket settledState 0).totalYesPool
        else (getMarket settledState 0).totalNoPool) :=
  claim_division_safe settledState 10 0
    (Reachable.reportTx stakedState 1 5 [] settleReportBytes
      (Reachable.predictTx bootState 10 0 Prediction.Yes 100
        (Reachable.create (initialState 1) 7 0 [81] (Reachable.deployed 1 (by decide)))))
    (by decide) (by decide) (by decide) (by decide) (by decide)

/-- C6: the authenticated entry point's routing — a report whose first
byte is `0x01` has its remaining bytes ABI-decoded as
`(marketId, outcome, confidence)` and settles that market (a failed
decode reverts); any other report is ABI-decoded in full as one string
and creates a market with it as the question (a failed decode
reverts). -/
theorem processReport_routing (s : ContractState) (sender timestamp : Nat)
    (report rest : List Nat) (marketId : Nat) (outcome : Prediction)
    (confidence : Nat) (question : List Nat) :
    (report = 1 :: rest →
      decodeSettleReport rest = some (marketId, outcome, confidence) →
      processReport s sender timestamp report =
        settleMarket s marketId outcome confidence timestamp) ∧
    (report = 1 :: rest → decodeSettleReport rest = none →
      processReport s sender timestamp report = .error Err.AbiDecodeError) ∧
    ((∀ r2 : List Nat, report ≠ 1 :: r2) →
      decodeStringReport report = some question →
      processReport s sender timestamp report =
        .ok ((createMarket s sender timestamp question).1,
             (createMarket s sender timestamp question).2.2)) ∧
    ((∀ r2 : List Nat, report ≠ 1 :: r2) →
      decodeStringReport report = none →
      processReport s sender timestamp report = .error Err.AbiDecodeError) := by
  refine ⟨?_, ?_, ?_, ?_⟩
  · rintro rfl hd
    simp [processReport, hd]
  · rintro rfl hd
    simp [processReport, hd]
  · intro hne hd
    cases report with
    | nil => simp [processReport, hd]
    | cons b rest2 =>
      have hb : b ≠ 1 := fun hb1 => hne rest2 (by rw [hb1])
      simp [processReport, hb, hd]
  · intro hne hd
    cases report with
    | nil => simp [processReport, hd]
    | cons b rest2 =>
      have hb : b ≠ 1 := fun hb1 => hne rest2 (by rw [hb1])
      simp [processReport, hb, hd]

/-- Witness for C6: the concrete settlement report routes to
`_settleMarket` with the decoded triple `(0, Yes, 9000)`, and the
concrete creation report (no `0x01` prefix) routes to `createMarket`
with the decoded question `"Q"`. -/
theorem processReport_routing_witness :
    processReport scenarioState 1 77 settleReportBytes =
      settleMarket scenarioState 0 Prediction.Yes 9000 77 ∧
    processReport scenarioState 1 77 createReportBytes =
      .ok ((createMarket scenarioState 1 77 [81]).1,
           (createMarket scenarioState 1 77 [81]).2.2) := by
  have ht := processReport_routing scenarioState 1 77 settleReportBytes
    (settleReportBytes.drop 1) 0 Prediction.Yes 9000 [81]
  have ht2 := processReport_routing scenarioState 1 77 createReportBytes
    [] 0 Prediction.Yes 9000 [81]
  refine ⟨ht.1 (by rfl) (by rfl), ht2.2.2.1 ?_ (by rfl)⟩
  intro r2 h
  simp [createReportBytes] at h

/-- C7: `onReport` called by any address other than a nonzero
configured forwarder fails with `InvalidSender` (the revert performs no
state change), and with the forwarder address cleared to zero the
sender check is skipped — no caller can be rejected as an invalid
sender. -/
theorem onReport_sender_auth (s : ContractState) (sender timestamp : Nat)
    (metadata report : List Nat) :
    (s.forwarderAddress ≠ 0 → sender ≠ s.forwarderAddress →
      onReport s sender timestamp metadata report = .error Err.InvalidSender) ∧
    (s.forwarderAddress = 0 →
      onReport s sender timestamp metadata report ≠ .error Err.InvalidSender) := by
  constructor
  · intro hf hs
    simp only [onReport]
    rw [if_pos ⟨hf, hs⟩]
  · intro hf
    simp only [onReport]
    rw [if_neg (fun hc => hc.1 hf)]
    repeat' split
    all_goals first
      | exact processReport_ne_invalidSender _ _ _ _
      | simp

/-- Witness for C7: address 9 is rejected by the freshly deployed
contract (forwarder = 1), and is not rejected as a sender once the
forwarder address is cleared. -/
theorem onReport_sender_auth_witness :
    onReport (initialState 1) 9 0 [] [] = .error Err.InvalidSender ∧
    onReport openState 9 0 [] [] ≠ .error Err.InvalidSender :=
  ⟨(onReport_sender_auth (initialState 1) 9 0 [] []).1 (by decide) (by decide),
   (onReport_sender_auth openState 9 0 [] []).2 rfl⟩

end PredictionMarket
